import Mathlib

/-!
Verification development for the `unfriendly` application model
(`unfriendly/model.py`): the in-memory friends-list store, the
timer-driven incremental friends-fetch loop, the unfollow action and the
credential loader are embedded as pure Lean functions, and the spec's
testable properties are settled against them.
-/

set_option autoImplicit false

namespace Unfriendly

/-! ## Data model

A tweepy `User` carries an id, a screen name and, when the account has
tweeted at least once, a latest `status` with its creation time.  An
account with no tweet has no `status` attribute: reading it raises, which
the embedding renders as `status = none` together with `Option`-valued
results for the operations that read it.  Timestamps are abstracted to
`Nat` (seconds); the display formatting of `FriendsList.add` is a pure
function of the timestamp and is kept as the timestamp itself. -/

structure Status where
  created_at : Nat
deriving DecidableEq

structure User where
  id : Int
  screen_name : String
  status : Option Status
deriving DecidableEq

/-- One row of the `FriendsList` store: the user-name item (text and
`_USER_NAME_ROLE`/`_SORT_ROLE` data are the screen name, `_USER_ID_ROLE`
data is the user id) together with the last-tweet timestamp stored on the
second column item. -/
structure Row where
  user_name : String
  user_id : Int
  last_tweet_ts : Nat
deriving DecidableEq

/-- The friends-list store (`FriendsList` in `model.py`): an ordered list
of rows of the underlying item model. -/
structure FriendsList where
  rows : List Row
deriving DecidableEq

def FriendsList.empty : FriendsList := ⟨[]⟩

/-- `FriendsList.add` (`model.py` lines 192-212): reads
`user.status.created_at` unconditionally, builds the two items and
appends a row.  For a user with no status the attribute read raises, so
the operation fails (`none`) and appends nothing. -/
def FriendsList.add (fl : FriendsList) (u : User) : Option FriendsList :=
  match u.status with
  | none => none
  | some st => some ⟨fl.rows ++ [⟨u.screen_name, u.id, st.created_at⟩]⟩

/-- The scan of `FriendsList.remove` (`model.py` lines 214-227): walk the
rows from the top, take out the first row whose `_USER_ID_ROLE` data
equals `user_id`, then `break`; no change when no row matches. -/
def removeFirst (uid : Int) : List Row → List Row
  | [] => []
  | r :: rs => if r.user_id = uid then rs else r :: removeFirst uid rs

def FriendsList.remove (fl : FriendsList) (uid : Int) : FriendsList :=
  ⟨removeFirst uid fl.rows⟩

/-- The user whose `FriendsList.add` produces exactly the row `r`. -/
def userOf (r : Row) : User :=
  ⟨r.user_id, r.user_name, some ⟨r.last_tweet_ts⟩⟩

/-- A store operation, for stating properties of operation sequences. -/
inductive Op where
  | add (u : User)
  | rem (uid : Int)

def applyOp (fl : FriendsList) : Op → Option FriendsList
  | .add u => fl.add u
  | .rem uid => some (fl.remove uid)

def applyOps (fl : FriendsList) : List Op → Option FriendsList
  | [] => some fl
  | op :: ops =>
    match applyOp fl op with
    | none => none
    | some fl2 => applyOps fl2 ops

/-- Outcome of the remote `destroy_friendship` call, as observed by
`UnfriendlyModel.unfollow_user`: success, or a `TweepError` carrying a
message. -/
inductive DestroyResult where
  | ok
  | err (msg : String)

/-- `UnfriendlyModel.unfollow_user` (`model.py` lines 136-148): try the
remote `destroy_friendship` call; on a `TweepError` emit one `Error`
signal with the error's message and leave the store alone; on success
remove the row from the store.  Returns the new store together with the
list of emitted `Error` messages. -/
def unfollow_user (fl : FriendsList) (uid : Int) (res : DestroyResult) :
    FriendsList × List String :=
  match res with
  | .err m => (fl, [m])
  | .ok => (fl.remove uid, [])

/-! ### Store lemmas -/

theorem removeFirst_sublist (uid : Int) :
    ∀ l : List Row, List.Sublist (removeFirst uid l) l := by
  intro l
  induction l with
  | nil => simp [removeFirst]
  | cons r rs ih =>
    by_cases h : r.user_id = uid
    · have hr : removeFirst uid (r :: rs) = rs := by simp [removeFirst, h]
      rw [hr]
      exact List.sublist_cons_self r rs
    · simpa [removeFirst, h] using ih.cons₂ r

theorem removeFirst_of_not_mem (uid : Int) :
    ∀ l : List Row, uid ∉ l.map Row.user_id → removeFirst uid l = l := by
  intro l
  induction l with
  | nil => simp [removeFirst]
  | cons r rs ih =>
    intro h
    simp only [List.map_cons, List.mem_cons] at h
    push_neg at h
    have hne : r.user_id ≠ uid := fun he => h.1 he.symm
    simp [removeFirst, hne, ih h.2]

theorem filter_ne_of_not_mem (uid : Int) :
    ∀ l : List Row, uid ∉ l.map Row.user_id →
      l.filter (fun r => r.user_id ≠ uid) = l := by
  intro l
  induction l with
  | nil => simp
  | cons r rs ih =>
    intro h
    simp only [List.map_cons, List.mem_cons] at h
    push_neg at h
    have hne : r.user_id ≠ uid := fun he => h.1 he.symm
    rw [List.filter_cons_of_pos (by simp [hne]), ih h.2]

theorem removeFirst_eq_filter (uid : Int) :
    ∀ l : List Row, (l.map Row.user_id).Nodup →
      removeFirst uid l = l.filter (fun r => r.user_id ≠ uid) := by
  intro l
  induction l with
  | nil => simp [removeFirst]
  | cons r rs ih =>
    intro hnd
    simp only [List.map_cons, List.nodup_cons] at hnd
    by_cases h : r.user_id = uid
    · have hu : uid ∉ rs.map Row.user_id := h ▸ hnd.1
      rw [List.filter_cons_of_neg (by simp [h]), filter_ne_of_not_mem uid rs hu]
      simp [removeFirst, h]
    · rw [List.filter_cons_of_pos (by simp [h]), ← ih hnd.2]
      simp [removeFirst, h]

theorem removeFirst_append_clean (uid : Int) :
    ∀ (pre : List Row) (r : Row) (post : List Row), r.user_id = uid →
      (∀ r2 ∈ pre, r2.user_id ≠ uid) →
      removeFirst uid (pre ++ r :: post) = pre ++ post := by
  intro pre
  induction pre with
  | nil =>
    intro r post hr _
    simp [removeFirst, hr]
  | cons p ps ih =>
    intro r post hr hclean
    have hp : p.user_id ≠ uid := hclean p (by simp)
    simp [removeFirst, hp, ih r post hr fun r2 h2 => hclean r2 (by simp [h2])]

/-! ## The incremental friends-fetch loop

`FriendsListQuery` (`model.py` lines 230-331) is a worker object driven
by a single-shot timer: `start` arms the timer, and each timer expiry
runs `_query`, which checks the running flag and then calls the current
query function (`_get_friends` or `_get_user`) on the current argument.
The embedding renders the object state as `QueryState`, one timer expiry
as `fire`, and the timer-driven run as `run` (fuel-bounded: the timer is
re-armed by the step itself, and once it is not armed no further step
fires).  The remote API is an oracle `Api` giving the result of the k-th
`friends_ids` and the k-th `get_user` call; a result is a success, a
`RateLimitError` (the only exception the loop catches) or another
`TweepError`.  A step in which an uncaught exception escapes is rendered
as `Except.error` with the exception message. -/

inductive RemoteResult (α : Type) where
  | ok (a : α)
  | rateLimit (msg : String)
  | err (msg : String)

/-- The phase of the loop: which method `_query_func` points at. -/
inductive QueryFunc where
  | getFriends
  | getUser
deriving DecidableEq

/-- The current `_query_arg`: `None` at construction, the user name for
the id-list phase, a user id for the per-user phase. -/
inductive QueryArg where
  | null
  | name (s : String)
  | uid (i : Int)
deriving DecidableEq

/-- A Qt signal emitted by the worker: `Response(user)` or `Timeout(e)`
(rendered by the rate-limit error's message). -/
inductive Event where
  | response (u : User)
  | timeout (msg : String)
deriving DecidableEq

/-- Oracle for the remote service: result of the k-th `friends_ids` call
and of the k-th `get_user` call (0-based, counted separately). -/
structure Api where
  friends_ids : Nat → QueryArg → RemoteResult (List Int)
  get_user : Nat → QueryArg → RemoteResult User

/-- The mutable state of `FriendsListQuery`: remaining iterator contents
`user_ids`, the `_running` flag, the current query function and argument,
the pending single-shot timer delay in milliseconds (`none` when the
timer is not armed), and the two call counters that index the oracle. -/
structure QueryState where
  user_name : String
  user_ids : List Int
  running : Bool
  query_func : Option QueryFunc
  query_arg : QueryArg
  query_timer : Option Nat
  fcalls : Nat
  ucalls : Nat
deriving DecidableEq

/-- `FriendsListQuery.__init__` (lines 236-256). -/
def initState (name : String) : QueryState :=
  ⟨name, [], true, none, .null, none, 0, 0⟩

/-- `FriendsListQuery.stop` (lines 258-261): clear the running flag. -/
def QueryState.stop (s : QueryState) : QueryState :=
  { s with running := false }

/-- `FriendsListQuery.start` (lines 263-273): point the query at
`_get_friends(user_name)` and arm the timer for 100 ms. -/
def QueryState.start (s : QueryState) : QueryState :=
  { s with query_func := some .getFriends, query_arg := .name s.user_name,
           query_timer := some 100 }

/-- One timer expiry: `_query` (lines 316-322) checks `_running` and
dispatches to `_get_friends` (lines 275-293) or `_get_user` (lines
295-314).  A `RateLimitError` is caught: the `Timeout` signal is emitted
and `_retry(60)` re-arms the timer for 60000 ms.  Any other remote error
is not caught and escapes the step (`Except.error`).  On success the
next id is pulled from the iterator and the timer re-armed with zero
delay, or, at `StopIteration`, nothing is re-armed (the loop is idle). -/
def fire (api : Api) (s : QueryState) : Except String (QueryState × List Event) :=
  match s with
  | ⟨nm, uids, running, qf, qa, _, fc, uc⟩ =>
    if running then
      match qf with
      | none => .error "TypeError"
      | some .getFriends =>
        match api.friends_ids fc qa with
        | .rateLimit m => .ok (⟨nm, uids, running, qf, qa, some 60000, fc + 1, uc⟩, [.timeout m])
        | .err m => .error m
        | .ok ids =>
          match ids with
          | [] => .ok (⟨nm, [], running, some .getUser, qa, none, fc + 1, uc⟩, [])
          | i :: rest =>
            .ok (⟨nm, rest, running, some .getUser, .uid i, some 0, fc + 1, uc⟩, [])
      | some .getUser =>
        match api.get_user uc qa with
        | .rateLimit m => .ok (⟨nm, uids, running, qf, qa, some 60000, fc, uc + 1⟩, [.timeout m])
        | .err m => .error m
        | .ok u =>
          match uids with
          | [] => .ok (⟨nm, [], running, qf, qa, none, fc, uc + 1⟩, [.response u])
          | i :: rest =>
            .ok (⟨nm, rest, running, qf, .uid i, some 0, fc, uc + 1⟩, [.response u])
    else .ok (⟨nm, uids, running, qf, qa, none, fc, uc⟩, [])

/-- Drive the loop: while the single-shot timer is armed, let it expire
and take the step, collecting emitted events, for at most `fuel` steps.
When the timer is not armed the loop is idle and nothing more happens. -/
def run (api : Api) : Nat → QueryState → Except String (QueryState × List Event)
  | 0, s => .ok (s, [])
  | fuel + 1, s =>
    match s.query_timer with
    | none => .ok (s, [])
    | some _ =>
      match fire api s with
      | .error e => .error e
      | .ok (s1, evs) =>
        match run api fuel s1 with
        | .error e => .error e
        | .ok (s2, evs2) => .ok (s2, evs ++ evs2)

/-- The number of `Response` signals in a list of emitted events. -/
def countResponses (evs : List Event) : Nat :=
  (evs.filter fun e => match e with | .response _ => true | .timeout _ => false).length

/-- The classification of the remote call the armed step is about to
make, for stating the propagation policy. -/
inductive RemoteOutcome where
  | ok
  | rateLimit (m : String)
  | err (m : String)
deriving DecidableEq

def RemoteResult.outcome {α : Type} : RemoteResult α → RemoteOutcome
  | .ok _ => .ok
  | .rateLimit m => .rateLimit m
  | .err m => .err m

/-- Outcome of the remote call the next `_query` dispatch would make
from state `s` (a missing query function is the uncatchable
`TypeError` of calling `None`). -/
def callOutcome (api : Api) (s : QueryState) : RemoteOutcome :=
  match s.query_func with
  | none => .err "TypeError"
  | some .getFriends => (api.friends_ids s.fcalls s.query_arg).outcome
  | some .getUser => (api.get_user s.ucalls s.query_arg).outcome

/-! ## Credential loader and startup

`UnfriendlyModel._get_auth_keys` (`model.py` lines 99-112) opens the
fixed resource `resources/.twitter_keys.json` and parses it with
`json.load`, returning the parsed dict unvalidated.  The file system and
parser are rendered as an explicit `Resource` input: a missing file makes
`open` raise (`IOError`), unparsable content makes `json.load` raise
(`ValueError`), and otherwise the parsed object is a string-keyed dict.
`UnfriendlyModel.__init__` (lines 24-53) then reads the four token
fields (`_get_api`, lines 114-134) and `user_name`; a missing field
raises `KeyError`.  All of these escape `__init__` uncaught, so startup
aborts; the spec groups them as its ConfigurationError category. -/

inductive Resource where
  | missing
  | malformed
  | json (d : List (String × String))

/-- The spec's fatal startup-error category, refined by which exception
the source raises: `IOError` from `open`, `ValueError` from `json.load`,
`KeyError` from a missing credential field. -/
inductive ConfigurationError where
  | ioError
  | valueError
  | keyError (k : String)
deriving DecidableEq

/-- `UnfriendlyModel._get_auth_keys`: open and parse the resource,
returning the raw dict; missing or unparsable content raises. -/
def get_auth_keys : Resource → Except ConfigurationError (List (String × String))
  | .missing => .error .ioError
  | .malformed => .error .valueError
  | .json d => .ok d

/-- A `dict[k]` access on the parsed JSON object. -/
def dictGet (d : List (String × String)) (k : String) : Except ConfigurationError String :=
  match d.find? (fun p => p.fst == k) with
  | some p => .ok p.snd
  | none => .error (.keyError k)

/-- The five credential fields the startup path reads. -/
structure AuthKeys where
  consumer_key : String
  consumer_secret : String
  access_token : String
  access_secret : String
  user_name : String
deriving DecidableEq

/-- The credential part of `UnfriendlyModel.__init__`: load the resource
once, then read the four token fields in the order `_get_api` does and
finally `user_name`.  Any raised error aborts startup; nothing catches
or retries it. -/
def modelStartup (res : Resource) : Except ConfigurationError AuthKeys := do
  let d ← get_auth_keys res
  let ck ← dictGet d "consumer_key"
  let cs ← dictGet d "consumer_secret"
  let atk ← dictGet d "access_token"
  let asc ← dictGet d "access_secret"
  let un ← dictGet d "user_name"
  return ⟨ck, cs, atk, asc, un⟩

/-! ## Run lemmas for the fetch loop -/

theorem run_zero (api : Api) (s : QueryState) : run api 0 s = .ok (s, []) := rfl

theorem run_idle (api : Api) (n : Nat) (s : QueryState) (h : s.query_timer = none) :
    run api n s = .ok (s, []) := by
  cases n with
  | zero => rfl
  | succ k => simp [run, h]

/-- Fuel splits: running `m + n` steps is running `m`, then `n` from
where that left off, with the event logs appended. -/
theorem run_bind (api : Api) :
    ∀ (m n : Nat) (s : QueryState),
      run api (m + n) s =
        match run api m s with
        | .error e => .error e
        | .ok (s1, e1) =>
          match run api n s1 with
          | .error e => .error e
          | .ok (s2, e2) => .ok (s2, e1 ++ e2) := by
  intro m
  induction m with
  | zero =>
    intro n s
    rw [Nat.zero_add, run_zero]
    cases h : run api n s with
    | error e => simp [h]
    | ok p => cases p with | mk s2 e2 => simp [h]
  | succ m ih =>
    intro n s
    have hm : m + 1 + n = (m + n) + 1 := by omega
    rw [hm]
    cases htm : s.query_timer with
    | none =>
      simp [run_idle api (m + n + 1) s htm, run_idle api (m + 1) s htm,
            run_idle api n s htm]
    | some d =>
      cases hf : fire api s with
      | error e =>
        have l1 : run api (m + n + 1) s = .error e := by simp [run, htm, hf]
        have l2 : run api (m + 1) s = .error e := by simp [run, htm, hf]
        simp [l1, l2]
      | ok p =>
        cases p with
        | mk s1 evs =>
          have l1 : run api (m + n + 1) s =
              match run api (m + n) s1 with
              | .error e => .error e
              | .ok (s2, e2) => .ok (s2, evs ++ e2) := by
            simp [run, htm, hf]
          have l2 : run api (m + 1) s =
              match run api m s1 with
              | .error e => .error e
              | .ok (s2, e2) => .ok (s2, evs ++ e2) := by
            simp [run, htm, hf]
          rw [l1, l2, ih n s1]
          cases h1 : run api m s1 with
          | error e => simp
          | ok p1 =>
            cases p1 with
            | mk s2 e2 =>
              cases h2 : run api n s2 with
              | error e => simp [h2]
              | ok p2 => cases p2 with | mk s3 e3 => simp [h2]

/-- Processing the per-user phase to exhaustion: from a state whose
current argument is `id` and whose pending iterator holds `rest`, when
every `get_user` call of the window succeeds with the record for the
requested id, the loop emits one `Response` per id, in input order, and
ends with the timer unarmed (idle). -/
theorem run_users (api : Api) (f : Int → User) :
    ∀ (rest : List Int) (id : Int) (nm : String) (d fc uc fuel : Nat),
      (∀ n, n ≤ rest.length → ∀ j, api.get_user (uc + n) (.uid j) = .ok (f j)) →
      rest.length + 1 ≤ fuel →
      ∃ qa, run api fuel ⟨nm, rest, true, some .getUser, .uid id, some d, fc, uc⟩
          = .ok (⟨nm, [], true, some .getUser, qa, none, fc, uc + (rest.length + 1)⟩,
                 (id :: rest).map fun j => Event.response (f j)) := by
  intro rest
  induction rest with
  | nil =>
    intro id nm d fc uc fuel hok hfuel
    obtain ⟨k, rfl⟩ : ∃ k, fuel = k + 1 := ⟨fuel - 1, by omega⟩
    refine ⟨.uid id, ?_⟩
    have h0 : api.get_user uc (.uid id) = .ok (f id) := by
      simpa using hok 0 (by simp) id
    simp [run, fire, h0, run_idle]
  | cons r rs ih =>
    intro id nm d fc uc fuel hok hfuel
    obtain ⟨k, rfl⟩ : ∃ k, fuel = k + 1 := ⟨fuel - 1, by omega⟩
    have h0 : api.get_user uc (.uid id) = .ok (f id) := by
      simpa using hok 0 (by simp) id
    have hok2 : ∀ n, n ≤ rs.length → ∀ j, api.get_user (uc + 1 + n) (.uid j) = .ok (f j) := by
      intro n hn j
      have h := hok (n + 1) (by simp [List.length_cons]; omega) j
      rwa [show uc + (n + 1) = uc + 1 + n by omega] at h
    obtain ⟨qa, hrun⟩ := ih r nm 0 fc (uc + 1) k hok2 (by simp at hfuel; omega)
    refine ⟨qa, ?_⟩
    have l1 : run api (k + 1) ⟨nm, r :: rs, true, some .getUser, .uid id, some d, fc, uc⟩
        = match run api k ⟨nm, rs, true, some .getUser, .uid r, some 0, fc, uc + 1⟩ with
          | .error e => .error e
          | .ok (s2, e2) => .ok (s2, Event.response (f id) :: e2) := by
      simp [run, fire, h0]
    rw [l1, hrun]
    have harith : uc + 1 + (rs.length + 1) = uc + (rs.length + 1 + 1) := by omega
    simp [harith]

/-- Processing the per-user phase partway: from current argument `c` with
pending ids `rem`, where `c :: rem = pre ++ x :: post`, exactly
`pre.length` successful steps emit one `Response` per id of `pre` and
leave the loop about to fetch `x`, with `post` pending. -/
theorem run_users_prefix (api : Api) (f : Int → User) :
    ∀ (pre : List Int) (x : Int) (post : List Int) (c : Int) (rem : List Int)
      (nm : String) (d fc uc : Nat),
      (∀ n, n < pre.length → ∀ j, api.get_user (uc + n) (.uid j) = .ok (f j)) →
      c :: rem = pre ++ x :: post →
      ∃ d2, run api pre.length ⟨nm, rem, true, some .getUser, .uid c, some d, fc, uc⟩
          = .ok (⟨nm, post, true, some .getUser, .uid x, some d2, fc, uc + pre.length⟩,
                 pre.map fun j => Event.response (f j)) := by
  intro pre
  induction pre with
  | nil =>
    intro x post c rem nm d fc uc _ hlist
    simp only [List.nil_append, List.cons.injEq] at hlist
    refine ⟨d, ?_⟩
    rw [hlist.1, hlist.2]
    simp [run_zero]
  | cons p ps ih =>
    intro x post c rem nm d fc uc hok hlist
    simp only [List.cons_append, List.cons.injEq] at hlist
    obtain ⟨hcp, hrem⟩ := hlist
    subst hcp
    have hne : ps ++ x :: post ≠ [] := by simp
    obtain ⟨c2, rem2, hq⟩ := List.exists_cons_of_ne_nil hne
    have h0 : api.get_user uc (.uid c) = .ok (f c) := by
      simpa using hok 0 (by simp) c
    have hok2 : ∀ n, n < ps.length → ∀ j, api.get_user (uc + 1 + n) (.uid j) = .ok (f j) := by
      intro n hn j
      have h := hok (n + 1) (by simp [List.length_cons]; omega) j
      rwa [show uc + (n + 1) = uc + 1 + n by omega] at h
    obtain ⟨d2, hrun⟩ := ih x post c2 rem2 nm 0 fc (uc + 1) hok2 (by rw [hq])
    refine ⟨d2, ?_⟩
    have l1 : run api (ps.length + 1) ⟨nm, rem, true, some .getUser, .uid c, some d, fc, uc⟩
        = match run api ps.length ⟨nm, rem2, true, some .getUser, .uid c2, some 0, fc, uc + 1⟩ with
          | .error e => .error e
          | .ok (s2, e2) => .ok (s2, Event.response (f c) :: e2) := by
      rw [hrem, hq]
      simp [run, fire, h0]
    rw [show (c :: ps).length = ps.length + 1 from rfl, l1, hrun]
    have harith : uc + 1 + ps.length = uc + (ps.length + 1) := by omega
    simp [harith]

/-! ## Store claims -/

/-- C10: the store's `add(user)` is partial at the public interface: it
unconditionally reads `user.status.created_at`, so it only succeeds in
appending a row when the user has at least one status; for a user with
no status it fails instead of appending a row. -/
theorem add_requires_latest_status (fl : FriendsList) (u : User) :
    (u.status = none → fl.add u = none) ∧
    (∀ st, u.status = some st →
      fl.add u = some ⟨fl.rows ++ [⟨u.screen_name, u.id, st.created_at⟩]⟩) := by
  constructor
  · intro h
    simp [FriendsList.add, h]
  · intro st h
    simp [FriendsList.add, h]

/-- C10 witness: a status-less user is rejected, a user with a latest
status is appended. -/
theorem add_requires_latest_status_witness :
    (FriendsList.empty.add ⟨101, "alice", none⟩ = none) ∧
    (FriendsList.empty.add ⟨101, "alice", some ⟨5⟩⟩ = some ⟨[⟨"alice", 101, 5⟩]⟩) :=
  ⟨(add_requires_latest_status FriendsList.empty ⟨101, "alice", none⟩).1 rfl,
   (add_requires_latest_status FriendsList.empty ⟨101, "alice", some ⟨5⟩⟩).2 ⟨5⟩ rfl⟩

/-- C7 counterexample: `remove` takes out the first matching row but
`add` appends at the end, so removing a non-final row and re-adding the
same record does not restore the prior (ordered) store state: from
`[alice, bob]`, removing alice's id and re-adding alice's record yields
`[bob, alice]`. -/
theorem remove_then_add_moves_row_to_end :
    (⟨"alice", 101, 1⟩ : Row) ∈ (FriendsList.mk [⟨"alice", 101, 1⟩, ⟨"bob", 202, 2⟩]).rows ∧
    ((FriendsList.mk [⟨"alice", 101, 1⟩, ⟨"bob", 202, 2⟩]).remove 101).add
        (userOf ⟨"alice", 101, 1⟩)
      = some (FriendsList.mk [⟨"bob", 202, 2⟩, ⟨"alice", 101, 1⟩]) ∧
    ((FriendsList.mk [⟨"alice", 101, 1⟩, ⟨"bob", 202, 2⟩]).remove 101).add
        (userOf ⟨"alice", 101, 1⟩)
      ≠ some (FriendsList.mk [⟨"alice", 101, 1⟩, ⟨"bob", 202, 2⟩]) := by
  decide

/-- C7 amended: removing a record's user id (the first matching row,
with no earlier row sharing the id) and re-adding the same record
restores the prior rows as a multiset — the row is re-appended at the
end rather than at its original position, so the prior state is restored
verbatim exactly when the removed row was last; and `remove` of an
absent id is a no-op that changes no row. -/
theorem remove_then_add_restores_up_to_order :
    (∀ (pre post : List Row) (r : Row),
      (∀ r2 ∈ pre, r2.user_id ≠ r.user_id) →
      ((FriendsList.mk (pre ++ r :: post)).remove r.user_id).add (userOf r)
          = some ⟨pre ++ post ++ [r]⟩ ∧
      (pre ++ post ++ [r]).Perm (pre ++ r :: post)) ∧
    (∀ (fl : FriendsList) (uid : Int),
      uid ∉ fl.rows.map Row.user_id → fl.remove uid = fl) := by
  constructor
  · intro pre post r hclean
    constructor
    · show (FriendsList.mk (removeFirst r.user_id (pre ++ r :: post))).add (userOf r) = _
      rw [removeFirst_append_clean r.user_id pre r post rfl hclean]
      simp [FriendsList.add, userOf]
    · rw [List.append_assoc]
      exact List.Perm.append_left pre (@List.perm_append_comm _ post [r])
  · intro fl uid h
    show FriendsList.mk (removeFirst uid fl.rows) = fl
    rw [removeFirst_of_not_mem uid fl.rows h]

/-- C7 amended witness: removing the (last-positioned) alice row and
re-adding it restores the store; removing an absent id is a no-op. -/
theorem remove_then_add_restores_up_to_order_witness :
    (((FriendsList.mk [⟨"bob", 202, 2⟩, ⟨"alice", 101, 1⟩]).remove 101).add
        (userOf ⟨"alice", 101, 1⟩)
      = some ⟨[⟨"bob", 202, 2⟩, ⟨"alice", 101, 1⟩]⟩ ∧
     ([⟨"bob", 202, 2⟩, ⟨"alice", 101, 1⟩] : List Row).Perm
       [⟨"bob", 202, 2⟩, ⟨"alice", 101, 1⟩]) ∧
    (FriendsList.mk [⟨"alice", 101, 1⟩]).remove 999 = FriendsList.mk [⟨"alice", 101, 1⟩] :=
  ⟨remove_then_add_restores_up_to_order.1 [⟨"bob", 202, 2⟩] [] ⟨"alice", 101, 1⟩
     (by decide),
   remove_then_add_restores_up_to_order.2 ⟨[⟨"alice", 101, 1⟩]⟩ 999 (by decide)⟩

/-- C8 counterexample: `add` has no de-duplication guard, so the
two-operation sequence adding the same user twice, starting from the
empty store, yields two rows sharing user id 101: duplicate user ids
are reachable. -/
theorem duplicate_add_breaks_distinctness :
    applyOps FriendsList.empty
        [.add ⟨101, "alice", some ⟨1⟩⟩, .add ⟨101, "alice", some ⟨1⟩⟩]
      = some ⟨[⟨"alice", 101, 1⟩, ⟨"alice", 101, 1⟩]⟩ ∧
    ¬ ((FriendsList.mk [⟨"alice", 101, 1⟩, ⟨"alice", 101, 1⟩]).rows.map Row.user_id).Nodup := by
  decide

/-- C8 amended: distinctness of user ids is an invariant of the store
only under the proviso that no `add` repeats a user id already present:
`add` of a fresh id preserves pairwise-distinct ids, and `remove` always
preserves them; `add` itself has no guard (see the counterexample). -/
theorem add_fresh_and_remove_preserve_distinctness :
    (∀ (fl fl2 : FriendsList) (u : User),
      (fl.rows.map Row.user_id).Nodup → u.id ∉ fl.rows.map Row.user_id →
      fl.add u = some fl2 → (fl2.rows.map Row.user_id).Nodup) ∧
    (∀ (fl : FriendsList) (uid : Int),
      (fl.rows.map Row.user_id).Nodup →
      ((fl.remove uid).rows.map Row.user_id).Nodup) := by
  constructor
  · intro fl fl2 u hnd hfresh hadd
    cases hst : u.status with
    | none => simp [FriendsList.add, hst] at hadd
    | some st =>
      simp only [FriendsList.add, hst, Option.some.injEq] at hadd
      subst hadd
      simp only [List.map_append, List.map_cons, List.map_nil]
      rw [List.nodup_append]
      refine ⟨hnd, by simp, ?_⟩
      simp [List.disjoint_singleton, hfresh]
  · intro fl uid hnd
    exact hnd.sublist (List.Sublist.map Row.user_id (removeFirst_sublist uid fl.rows))

/-- C8 amended witness: adding a fresh id to a one-row store keeps ids
distinct, and removal from it keeps ids distinct. -/
theorem add_fresh_and_remove_preserve_distinctness_witness :
    ((FriendsList.mk [⟨"bob", 202, 2⟩, ⟨"alice", 101, 1⟩]).rows.map Row.user_id).Nodup ∧
    (((FriendsList.mk [⟨"alice", 101, 1⟩]).remove 101).rows.map Row.user_id).Nodup :=
  ⟨add_fresh_and_remove_preserve_distinctness.1 ⟨[⟨"bob", 202, 2⟩]⟩
     ⟨[⟨"bob", 202, 2⟩, ⟨"alice", 101, 1⟩]⟩ ⟨101, "alice", some ⟨1⟩⟩
     (by decide) (by decide) rfl,
   add_fresh_and_remove_preserve_distinctness.2 ⟨[⟨"alice", 101, 1⟩]⟩ 101 (by decide)⟩

/-- C4: for a store with pairwise-distinct user ids containing the given
user id, a successful `destroy_friendship` makes `unfollow_user` remove
exactly the row with that id (every other row remains, in order) and
emit no error; a failed call carrying message `m` leaves the store
completely unchanged and emits exactly the one error message `m`, with
no retry. -/
theorem unfollow_removes_row_on_success_keeps_on_error
    (fl : FriendsList) (uid : Int)
    (hnd : (fl.rows.map Row.user_id).Nodup)
    (_hmem : uid ∈ fl.rows.map Row.user_id) :
    unfollow_user fl uid .ok = (⟨fl.rows.filter fun r => r.user_id ≠ uid⟩, []) ∧
    ∀ m, unfollow_user fl uid (.err m) = (fl, [m]) := by
  refine ⟨?_, fun m => rfl⟩
  show (FriendsList.mk (removeFirst uid fl.rows), ([] : List String)) = _
  rw [removeFirst_eq_filter uid fl.rows hnd]

/-- C4 witness: the spec scenario — store `[101 alice, 202 bob]`;
success on 101 removes exactly alice's row, failure with "not found"
leaves the store unchanged and emits that message. -/
theorem unfollow_removes_row_on_success_keeps_on_error_witness :
    unfollow_user (FriendsList.mk [⟨"alice", 101, 1⟩, ⟨"bob", 202, 2⟩]) 101 .ok
      = (⟨[⟨"alice", 101, 1⟩, ⟨"bob", 202, 2⟩].filter fun r => r.user_id ≠ 101⟩, []) ∧
    ∀ m, unfollow_user (FriendsList.mk [⟨"alice", 101, 1⟩, ⟨"bob", 202, 2⟩]) 101 (.err m)
      = (FriendsList.mk [⟨"alice", 101, 1⟩, ⟨"bob", 202, 2⟩], [m]) :=
  unfollow_removes_row_on_success_keeps_on_error
    ⟨[⟨"alice", 101, 1⟩, ⟨"bob", 202, 2⟩]⟩ 101 (by decide) (by decide)

theorem countResponses_append (a b : List Event) :
    countResponses (a ++ b) = countResponses a + countResponses b := by
  simp [countResponses, List.filter_append]

theorem countResponses_map_response (f : Int → User) (ids : List Int) :
    countResponses (ids.map fun j => Event.response (f j)) = ids.length := by
  induction ids with
  | nil => rfl
  | cons c cs ih =>
    simp only [List.map_cons, countResponses, List.filter_cons] at ih ⊢
    simp only [List.length_cons, ← ih]
    rfl

/-! ## Fetch-loop claims -/

/-- C1: with the friend-id listing returning `ids` and every `get_user`
call succeeding with the record for the requested id, the started loop
emits exactly `ids.length` `Response` events, one per id and in the
order of `ids`, then returns to idle: the timer is left unarmed, so no
further step is scheduled and any larger fuel gives the same emissions.
An empty listing yields zero emissions. -/
theorem fetch_loop_emits_all_in_order
    (nm : String) (ids : List Int) (f : Int → User) (api : Api)
    (hfr : api.friends_ids 0 (.name nm) = .ok ids)
    (hok : ∀ k j, api.get_user k (.uid j) = .ok (f j))
    (fuel : Nat) (hfuel : ids.length + 1 ≤ fuel) :
    ∃ s2, run api fuel (initState nm).start
        = .ok (s2, ids.map fun j => Event.response (f j)) ∧
      s2.query_timer = none ∧
      countResponses (ids.map fun j => Event.response (f j)) = ids.length := by
  obtain ⟨k, rfl⟩ : ∃ k, fuel = k + 1 := ⟨fuel - 1, by omega⟩
  have hS : (initState nm).start = ⟨nm, [], true, some .getFriends, .name nm, some 100, 0, 0⟩ := rfl
  rw [hS]
  cases ids with
  | nil =>
    refine ⟨⟨nm, [], true, some .getUser, .name nm, none, 1, 0⟩, ?_, rfl, rfl⟩
    simp [run, fire, hfr, run_idle]
  | cons c cs =>
    have hok2 : ∀ n, n ≤ cs.length → ∀ j, api.get_user (0 + n) (.uid j) = .ok (f j) := by
      intro n _ j
      exact hok (0 + n) j
    obtain ⟨qa, hrun⟩ := run_users api f cs c nm 0 1 0 k hok2 (by simp at hfuel; omega)
    refine ⟨⟨nm, [], true, some .getUser, qa, none, 1, 0 + (cs.length + 1)⟩, ?_, rfl,
            countResponses_map_response f (c :: cs)⟩
    have l1 : run api (k + 1) ⟨nm, [], true, some .getFriends, .name nm, some 100, 0, 0⟩
        = run api k ⟨nm, cs, true, some .getUser, .uid c, some 0, 1, 0⟩ := by
      cases h : run api k ⟨nm, cs, true, some .getUser, .uid c, some 0, 1, 0⟩ with
      | error e => simp [run, fire, hfr, h]
      | ok p => cases p with | mk a b => simp [run, fire, hfr, h]
    rw [l1, hrun]

/-- C1 witness data: a remote service with friends `[101, 202]` and a
fixed record per id, never rate-limited. -/
def c1User (j : Int) : User := ⟨j, "user", some ⟨0⟩⟩

def c1Api : Api :=
  ⟨fun _ _ => .ok [101, 202],
   fun _ a => .ok (c1User (match a with | .uid j => j | _ => 0))⟩

/-- C1 witness: the loop run on `c1Api` with fuel 3 emits exactly the
two records, in listing order, and ends idle. -/
theorem fetch_loop_emits_all_in_order_witness :
    ∃ s2, run c1Api 3 (initState "me").start
        = .ok (s2, [Event.response (c1User 101), Event.response (c1User 202)]) ∧
      s2.query_timer = none ∧
      countResponses [Event.response (c1User 101), Event.response (c1User 202)] = 2 :=
  fetch_loop_emits_all_in_order "me" [101, 202] c1User c1Api rfl
    (fun _ _ => rfl) 3 (by decide)

/-- C5: when the friend-id listing rate-limits once and then succeeds
with `[303]`, the first step emits exactly one `Timeout`, leaves the loop
in the same id-list phase with the same argument (cursor not advanced)
and the timer armed for the 60-second back-off; the full run then emits
exactly one record, for 303, and returns to idle. -/
theorem rate_limited_id_list_retries_then_completes
    (nm msg : String) (u : User) (api : Api)
    (h0 : api.friends_ids 0 (.name nm) = .rateLimit msg)
    (h1 : api.friends_ids 1 (.name nm) = .ok [303])
    (h2 : api.get_user 0 (.uid 303) = .ok u) :
    run api 1 (initState nm).start
      = .ok (⟨nm, [], true, some .getFriends, .name nm, some 60000, 1, 0⟩, [.timeout msg]) ∧
    ∀ fuel, 3 ≤ fuel →
      ∃ s2, run api fuel (initState nm).start = .ok (s2, [.timeout msg, .response u]) ∧
        s2.query_timer = none := by
  have hS : (initState nm).start = ⟨nm, [], true, some .getFriends, .name nm, some 100, 0, 0⟩ := rfl
  constructor
  · rw [hS]
    simp [run, fire, h0]
  · intro fuel hfuel
    obtain ⟨k, rfl⟩ : ∃ k, fuel = 3 + k := ⟨fuel - 3, by omega⟩
    have h3 : run api 3 (initState nm).start
        = .ok (⟨nm, [], true, some .getUser, .uid 303, none, 2, 1⟩, [.timeout msg, .response u]) := by
      rw [hS]
      simp [run, fire, h0, h1, h2]
    rw [run_bind api 3 k (initState nm).start, h3]
    refine ⟨⟨nm, [], true, some .getUser, .uid 303, none, 2, 1⟩, ?_, rfl⟩
    simp [run_idle api k ⟨nm, [], true, some .getUser, .uid 303, none, 2, 1⟩ rfl]

/-- C5 witness data: a remote service that rate-limits the first
friends-ids call and then serves `[303]` and its record. -/
def c5Api : Api :=
  ⟨fun k _ => if k = 0 then .rateLimit "limit" else .ok [303],
   fun _ _ => .ok ⟨303, "carol", some ⟨7⟩⟩⟩

/-- C5 witness: on `c5Api` the first step emits the one timeout and
backs off 60 s without advancing; the full run emits the one record and
ends idle. -/
theorem rate_limited_id_list_retries_then_completes_witness :
    run c5Api 1 (initState "me").start
      = .ok (⟨"me", [], true, some .getFriends, .name "me", some 60000, 1, 0⟩,
             [.timeout "limit"]) ∧
    ∀ fuel, 3 ≤ fuel →
      ∃ s2, run c5Api fuel (initState "me").start
          = .ok (s2, [.timeout "limit", .response ⟨303, "carol", some ⟨7⟩⟩]) ∧
        s2.query_timer = none :=
  rate_limited_id_list_retries_then_completes "me" "limit" ⟨303, "carol", some ⟨7⟩⟩ c5Api
    rfl rfl rfl

/-- C6: once the stop signal has cleared the running flag, every fired
step checks the flag first and does no work and emits nothing; in
particular stop before start gives a whole run with zero emissions, the
loop ending idle in its initial phase. -/
theorem stopped_loop_steps_do_nothing :
    (∀ (api : Api) (s : QueryState), s.running = false →
      fire api s = .ok ({ s with query_timer := none }, [])) ∧
    (∀ (api : Api) (nm : String) (fuel : Nat), 1 ≤ fuel →
      run api fuel ((initState nm).stop).start
        = .ok (⟨nm, [], false, some .getFriends, .name nm, none, 0, 0⟩, [])) := by
  constructor
  · intro api s h
    obtain ⟨nm, uids, rn, qf, qa, tm, fc, uc⟩ := s
    have h2 : rn = false := h
    subst h2
    rfl
  · intro api nm fuel hfuel
    obtain ⟨k, rfl⟩ : ∃ k, fuel = k + 1 := ⟨fuel - 1, by omega⟩
    have hS : ((initState nm).stop).start
        = ⟨nm, [], false, some .getFriends, .name nm, some 100, 0, 0⟩ := rfl
    rw [hS]
    simp [run, fire, run_idle]

/-- C6 witness data: a remote service that would serve one friend. -/
def c6Api : Api :=
  ⟨fun _ _ => .ok [7], fun _ _ => .ok ⟨7, "dave", some ⟨3⟩⟩⟩

/-- C6 witness: a concrete stopped state fires to a no-op, and the
stop-then-start run on a service that would yield a friend emits
nothing. -/
theorem stopped_loop_steps_do_nothing_witness :
    fire c6Api ⟨"me", [7], false, some .getUser, .uid 7, some 0, 1, 0⟩
      = .ok ({ (⟨"me", [7], false, some .getUser, .uid 7, some 0, 1, 0⟩ : QueryState) with
                query_timer := none }, []) ∧
    run c6Api 5 ((initState "me").stop).start
      = .ok (⟨"me", [], false, some .getFriends, .name "me", none, 0, 0⟩, []) :=
  ⟨stopped_loop_steps_do_nothing.1 c6Api ⟨"me", [7], false, some .getUser, .uid 7, some 0, 1, 0⟩ rfl,
   stopped_loop_steps_do_nothing.2 c6Api "me" 5 (by decide)⟩

/-- C3 counterexample data: a remote service whose every call fails with
a `TweepError` that is not a `RateLimitError` (so, by construction, no
call ever yields a rate-limit error). -/
def errApi : Api :=
  ⟨fun _ _ => .err "boom", fun _ _ => .err "boom"⟩

/-- C3 counterexample: `_get_friends` and `_get_user` catch only
`RateLimitError`, so a step whose remote call fails with any other
remote error raises past the loop's boundary: the fired step is an
uncaught exception (`Except.error`), not a retry schedule nor an emitted
notification, contradicting the claim that no exception propagates out
of a step. -/
theorem fetch_step_error_escapes :
    fire errApi (initState "me").start = .error "boom" ∧
    run errApi 1 (initState "me").start = .error "boom" :=
  ⟨rfl, rfl⟩

/-- C3 amended: the propagation policy holds only for rate limits: a
step whose remote call rate-limits is translated into the `Timeout`
notification plus a 60-second retry schedule and raises nothing, while a
step that does raise can do so only because its remote call failed with
a non-rate-limit error (carrying that error's message), which no handler
catches. -/
theorem rate_limit_translated_other_errors_escape
    (api : Api) (s : QueryState) (h : s.running = true) :
    (∀ m, callOutcome api s = .rateLimit m →
      ∃ s2, fire api s = .ok (s2, [.timeout m]) ∧ s2.query_timer = some 60000) ∧
    (∀ e, fire api s = .error e → callOutcome api s = .err e) := by
  obtain ⟨nm, uids, rn, qf, qa, tm, fc, uc⟩ := s
  have h2 : rn = true := h
  subst h2
  constructor
  · intro m hm
    cases qf with
    | none => simp [callOutcome] at hm
    | some qfv =>
      cases qfv with
      | getFriends =>
        cases hc : api.friends_ids fc qa with
        | ok ids => simp [callOutcome, RemoteResult.outcome, hc] at hm
        | rateLimit m2 =>
          simp only [callOutcome, RemoteResult.outcome, hc, RemoteOutcome.rateLimit.injEq] at hm
          subst hm
          refine ⟨⟨nm, uids, true, some .getFriends, qa, some 60000, fc + 1, uc⟩, ?_, rfl⟩
          simp [fire, hc]
        | err m2 => simp [callOutcome, RemoteResult.outcome, hc] at hm
      | getUser =>
        cases hc : api.get_user uc qa with
        | ok u => simp [callOutcome, RemoteResult.outcome, hc] at hm
        | rateLimit m2 =>
          simp only [callOutcome, RemoteResult.outcome, hc, RemoteOutcome.rateLimit.injEq] at hm
          subst hm
          refine ⟨⟨nm, uids, true, some .getUser, qa, some 60000, fc, uc + 1⟩, ?_, rfl⟩
          simp [fire, hc]
        | err m2 => simp [callOutcome, RemoteResult.outcome, hc] at hm
  · intro e he
    cases qf with
    | none =>
      simp only [fire, if_true, Except.error.injEq] at he
      subst he
      rfl
    | some qfv =>
      cases qfv with
      | getFriends =>
        cases hc : api.friends_ids fc qa with
        | ok ids =>
          cases ids <;> simp [fire, hc] at he
        | rateLimit m2 => simp [fire, hc] at he
        | err m2 =>
          simp only [fire, hc, if_true, Except.error.injEq] at he
          subst he
          simp [callOutcome, RemoteResult.outcome, hc]
      | getUser =>
        cases hc : api.get_user uc qa with
        | ok u =>
          cases uids <;> simp [fire, hc] at he
        | rateLimit m2 => simp [fire, hc] at he
        | err m2 =>
          simp only [fire, hc, if_true, Except.error.injEq] at he
          subst he
          simp [callOutcome, RemoteResult.outcome, hc]

/-- C3 amended witness data: a remote service whose every call is
rate-limited. -/
def rlApi : Api :=
  ⟨fun _ _ => .rateLimit "limit", fun _ _ => .rateLimit "limit"⟩

/-- C3 amended witness: instantiated at the started state and an
always-rate-limited service. -/
theorem rate_limit_translated_other_errors_escape_witness :
    (∀ m, callOutcome rlApi (initState "me").start = .rateLimit m →
      ∃ s2, fire rlApi (initState "me").start = .ok (s2, [.timeout m]) ∧
        s2.query_timer = some 60000) ∧
    (∀ e, fire rlApi (initState "me").start = .error e →
      callOutcome rlApi (initState "me").start = .err e) :=
  rate_limit_translated_other_errors_escape rlApi (initState "me").start rfl

/-- C2: when the friend-id listing is `pre ++ x :: post` and the
`get_user` call numbered `pre.length` (the first attempt at index
`pre.length`, which requests `x`) rate-limits while every other call
succeeds, then after the listing step, the `pre.length` successful
fetches and the rate-limited step, the loop has emitted the `pre`
records followed by exactly one `Timeout`, and sits at the same index:
argument still `x`, pending ids still `post`, timer armed for the
60-second back-off.  The full run still emits a record for `x` and every
later id, so the total `Response` count is the full listing length: no
index is skipped. -/
theorem rate_limited_user_fetch_retries_same_index
    (nm msg : String) (pre post : List Int) (x : Int) (f : Int → User) (api : Api)
    (hfr : api.friends_ids 0 (.name nm) = .ok (pre ++ x :: post))
    (hok : ∀ k, k ≠ pre.length → ∀ j, api.get_user k (.uid j) = .ok (f j))
    (hrl : api.get_user pre.length (.uid x) = .rateLimit msg) :
    run api (pre.length + 2) (initState nm).start
      = .ok (⟨nm, post, true, some .getUser, .uid x, some 60000, 1, pre.length + 1⟩,
             (pre.map fun j => Event.response (f j)) ++ [.timeout msg]) ∧
    ∀ fuel, (pre ++ x :: post).length + 2 ≤ fuel →
      ∃ s2, run api fuel (initState nm).start
          = .ok (s2, ((pre.map fun j => Event.response (f j)) ++ [.timeout msg])
                      ++ ((x :: post).map fun j => Event.response (f j))) ∧
        s2.query_timer = none ∧
        countResponses (((pre.map fun j => Event.response (f j)) ++ [.timeout msg])
                        ++ ((x :: post).map fun j => Event.response (f j)))
          = (pre ++ x :: post).length := by
  have hS : (initState nm).start = ⟨nm, [], true, some .getFriends, .name nm, some 100, 0, 0⟩ := rfl
  have hne : pre ++ x :: post ≠ [] := by simp
  obtain ⟨c, rem, hq⟩ := List.exists_cons_of_ne_nil hne
  have hokpre : ∀ n, n < pre.length → ∀ j, api.get_user (0 + n) (.uid j) = .ok (f j) := by
    intro n hn j
    exact hok (0 + n) (by omega) j
  obtain ⟨d2, hpre⟩ := run_users_prefix api f pre x post c rem nm 0 1 0 hokpre hq.symm
  rw [Nat.zero_add] at hpre
  have hstep1 : ∀ z : Nat, run api (z + 1) (initState nm).start
      = run api z ⟨nm, rem, true, some .getUser, .uid c, some 0, 1, 0⟩ := by
    intro z
    rw [hS]
    have hfr2 : api.friends_ids 0 (.name nm) = .ok (c :: rem) := by rw [hfr, hq]
    cases h : run api z ⟨nm, rem, true, some .getUser, .uid c, some 0, 1, 0⟩ with
    | error e => simp [run, fire, hfr2, h]
    | ok p => cases p with | mk a b => simp [run, fire, hfr2, h]
  have hrlstep : run api 1 ⟨nm, post, true, some .getUser, .uid x, some d2, 1, pre.length⟩
      = .ok (⟨nm, post, true, some .getUser, .uid x, some 60000, 1, pre.length + 1⟩,
             [.timeout msg]) := by
    simp [run, fire, hrl, run_idle]
  have hmid : run api (pre.length + 2) (initState nm).start
      = .ok (⟨nm, post, true, some .getUser, .uid x, some 60000, 1, pre.length + 1⟩,
             (pre.map fun j => Event.response (f j)) ++ [.timeout msg]) := by
    have hsplit : pre.length + 2 = (pre.length + 1) + 1 := rfl
    rw [hsplit, hstep1 (pre.length + 1), run_bind api pre.length 1 _, hpre]
    simp [hrlstep]
  refine ⟨hmid, ?_⟩
  intro fuel hfuel
  obtain ⟨k, hk, rfl⟩ : ∃ k, post.length + 1 ≤ k ∧ fuel = (pre.length + 2) + k := by
    refine ⟨fuel - (pre.length + 2), ?_, ?_⟩ <;> simp at hfuel <;> omega
  have hokpost : ∀ n, n ≤ post.length → ∀ j,
      api.get_user (pre.length + 1 + n) (.uid j) = .ok (f j) := by
    intro n _ j
    exact hok (pre.length + 1 + n) (by omega) j
  obtain ⟨qa, hpost⟩ := run_users api f post x nm 60000 1 (pre.length + 1) k hokpost hk
  rw [run_bind api (pre.length + 2) k _, hmid]
  refine ⟨⟨nm, [], true, some .getUser, qa, none, 1, pre.length + 1 + (post.length + 1)⟩, ?_, rfl, ?_⟩
  · simp [hpost]
  · rw [countResponses_append, countResponses_append, countResponses_map_response,
        countResponses_map_response]
    simp [countResponses]

/-- C2 witness data: friends `[101, 202, 303]`; the second `get_user`
call (the first attempt at index 1) rate-limits, every other call
serves the record for the requested id. -/
def c2User (j : Int) : User := ⟨j, "pal", some ⟨1⟩⟩

def c2Api : Api :=
  ⟨fun _ _ => .ok [101, 202, 303],
   fun k a => if k = 1 then .rateLimit "limit"
              else .ok (c2User (match a with | .uid j => j | _ => 0))⟩

/-- C2 witness: on `c2Api` with `pre = [101]`, `x = 202`, `post = [303]`
the mid-run state retries index 1 after the 60-second back-off and the
full run emits all three records plus the one timeout. -/
theorem rate_limited_user_fetch_retries_same_index_witness :
    run c2Api (List.length [101] + 2) (initState "me").start
      = .ok (⟨"me", [303], true, some .getUser, .uid 202, some 60000, 1, List.length [101] + 1⟩,
             (List.map (fun j => Event.response (c2User j)) [101]) ++ [.timeout "limit"]) ∧
    ∀ fuel, List.length ([101] ++ 202 :: [303]) + 2 ≤ fuel →
      ∃ s2, run c2Api fuel (initState "me").start
          = .ok (s2, ((List.map (fun j => Event.response (c2User j)) [101]) ++ [.timeout "limit"])
                      ++ (List.map (fun j => Event.response (c2User j)) (202 :: [303]))) ∧
        s2.query_timer = none ∧
        countResponses (((List.map (fun j => Event.response (c2User j)) [101]) ++ [.timeout "limit"])
                        ++ (List.map (fun j => Event.response (c2User j)) (202 :: [303])))
          = List.length ([101] ++ 202 :: [303]) :=
  rate_limited_user_fetch_retries_same_index "me" "limit" [101] [303] 202 c2User c2Api
    rfl (by intro k hk j; have hk2 : k ≠ 1 := hk; simp [c2Api, hk2]) rfl

/-! ## Credential-loader claim -/

/-- C9: the credential loader reads the fixed local resource once at
startup; a missing resource fails with the `IOError` and unparsable
content with the `ValueError` of the spec's ConfigurationError category,
any loader failure aborts startup unchanged (it is never caught, so
never retried), and on a well-formed resource startup obtains exactly
the five credential fields. -/
theorem credentials_load_once_fatal :
    modelStartup .missing = .error .ioError ∧
    modelStartup .malformed = .error .valueError ∧
    (∀ res e, get_auth_keys res = .error e → modelStartup res = .error e) ∧
    (∀ d ck cs atk asc un,
      dictGet d "consumer_key" = .ok ck → dictGet d "consumer_secret" = .ok cs →
      dictGet d "access_token" = .ok atk → dictGet d "access_secret" = .ok asc →
      dictGet d "user_name" = .ok un →
      modelStartup (.json d) = .ok ⟨ck, cs, atk, asc, un⟩) := by
  refine ⟨rfl, rfl, ?_, ?_⟩
  · intro res e h
    cases res with
    | missing =>
      simp only [get_auth_keys, Except.error.injEq] at h
      subst h
      rfl
    | malformed =>
      simp only [get_auth_keys, Except.error.injEq] at h
      subst h
      rfl
    | json d => simp [get_auth_keys] at h
  · intro d ck cs atk asc un h1 h2 h3 h4 h5
    simp [modelStartup, get_auth_keys, h1, h2, h3, h4, h5, Bind.bind, Except.bind,
          Pure.pure, Except.pure]

/-- C9 witness: a resource holding the five fields loads them; a missing
resource is fatal. -/
theorem credentials_load_once_fatal_witness :
    modelStartup (.json [("consumer_key", "a"), ("consumer_secret", "b"),
        ("access_token", "c"), ("access_secret", "d"), ("user_name", "me")])
      = .ok ⟨"a", "b", "c", "d", "me"⟩ ∧
    modelStartup .missing = .error .ioError :=
  ⟨credentials_load_once_fatal.2.2.2
     [("consumer_key", "a"), ("consumer_secret", "b"), ("access_token", "c"),
      ("access_secret", "d"), ("user_name", "me")]
     "a" "b" "c" "d" "me" rfl rfl rfl rfl rfl,
   credentials_load_once_fatal.1⟩

end Unfriendly
